import Mathlib

/-!
Verification development for the nueralHFT dataset-assembly pipeline.

The definitions below are a shallow embedding of the pipeline code in
`neural/data/alpaca.py` and `neural/client/alpaca.py`:

* symbol validation (`AlpacaDataFetcher._validate_symbols`),
* resolution validation (`AlpacaDataFetcher._validate_resolution`),
* the per-session alignment step of
  `AlpacaDataFetcher.download_features_to_hdf5` (symmetric-difference
  missing-symbol check, pandas `groupby('symbol')` with its default
  `sort=True`, `pd.concat(..., axis=1)`),
* the session loop of `download_features_to_hdf5` with its fetch calls
  made explicit as a trace,
* the growable dataset store.

Components of the repository that the pipeline calls but whose source is
not part of `src/` (`DataProcessor.reindex_and_forward_fill`,
`DataProcessor.running_dataset_density`, `DatasetIO.write_to_hdf5`,
`create_column_schema` from `neural/tools/base.py`) are modelled from the
specification; each such definition says so in its doc comment.

Timestamps are modelled as natural numbers (minutes since some epoch),
feature values as integers, missing cells as `none` (the float `NaN`
produced by pandas reindexing).
-/

namespace Neural

/-- Decidable equality of `Except` results, used to evaluate the
embedding on concrete inputs. -/
instance instDecEqExcept {ε α : Type} [DecidableEq ε] [DecidableEq α] :
    DecidableEq (Except ε α) := fun x y =>
  match x, y with
  | .ok a, .ok b =>
    if h : a = b then isTrue (by rw [h]) else isFalse (fun hh => h (Except.ok.inj hh))
  | .error a, .error b =>
    if h : a = b then isTrue (by rw [h]) else isFalse (fun hh => h (Except.error.inj hh))
  | .ok _, .error _ => isFalse (fun hh => Except.noConfusion hh)
  | .error _, .ok _ => isFalse (fun hh => Except.noConfusion hh)

/-- Asset classes used by the pipeline (`AssetClass.US_EQUITY` and
`AssetClass.CRYPTO` from the alpaca enums). -/
inductive AssetClass
  | usEquity
  | crypto
deriving DecidableEq

/-- Asset status from the alpaca enums; the validator only distinguishes
`ACTIVE` from everything else. -/
inductive AssetStatus
  | active
  | inactive
deriving DecidableEq

/-- Symbol descriptor as stored in the client catalog (the `Asset` objects
in `AlpacaClient._symbols`): identifier, asset class, tradable flag,
status, fractionable flag, easy-to-borrow flag. -/
structure Asset where
  symbol : String
  asset_class : AssetClass
  tradable : Bool
  status : AssetStatus
  fractionable : Bool
  easy_to_borrow : Bool
deriving DecidableEq

/-- Catalog lookup, `self.client._AlpacaClient__symbols.get(symbol)`:
a dictionary keyed by symbol identifier, here an association by the
`symbol` field. -/
def symbolsMap (catalog : List Asset) (s : String) : Option Asset :=
  catalog.find? (fun a => a.symbol = s)

/-- The distinct failure modes of `_validate_symbols` and of
`_validate_resolution`/schedule construction.  The source raises
`ValueError` with a distinct message for each; the spec names them
`EmptyInputError`, `DuplicateSymbolError`, `UnknownSymbolError`,
`NotTradableError`, `InactiveSymbolError`, `MixedAssetClassError`. -/
inductive ValidationError
  | emptyInput
  | duplicateSymbol (dups : List String)
  | unknownSymbol (s : String)
  | notTradable (s : String)
  | inactiveSymbol (s : String)
  | mixedAssetClass
deriving DecidableEq

/-- Body of the per-symbol loop of `_validate_symbols`
(src/neural/data/alpaca.py lines 110-129): unknown symbol, then
non-tradable, then non-active, in that order; the fractionable and
easy-to-borrow checks only emit warnings and never produce an error, so
they do not appear in the result. -/
def checkSymbol (catalog : List Asset) (s : String) : Option ValidationError :=
  match symbolsMap catalog s with
  | none => some (.unknownSymbol s)
  | some a =>
    if a.tradable = false then some (.notTradable s)
    else if a.status ≠ AssetStatus.active then some (.inactiveSymbol s)
    else none

/-- Number of occurrences of `s` in `l` (`symbols.count(symbol)` in the
source). -/
def countOcc (l : List String) (s : String) : Nat :=
  (l.filter fun t => t = s).length

/-- Embedding of `AlpacaDataFetcher._validate_symbols`
(src/neural/data/alpaca.py lines 79-141; `AlpacaDataClient._validate_symbols`
in src/neural/client/alpaca.py lines 302-365 is the same logic):
empty check, duplicate check, per-symbol loop in list order, then the
asset-class set must be a singleton, whose element is returned. -/
def validateSymbols (catalog : List Asset) (symbols : List String) :
    Except ValidationError AssetClass :=
  if symbols.length = 0 then .error .emptyInput
  else if (symbols.dedup.filter fun s => 1 < countOcc symbols s) = [] then
    match symbols.findSome? (checkSymbol catalog) with
    | some e => .error e
    | none =>
      match (symbols.filterMap fun s =>
          (symbolsMap catalog s).map Asset.asset_class).dedup with
      | [c] => .ok c
      | _ => .error .mixedAssetClass
  else .error (.duplicateSymbol (symbols.dedup.filter fun s => 1 < countOcc symbols s))

/-- Embedding of `AlpacaDataFetcher._validate_resolution`
(src/neural/data/alpaca.py lines 58-77): membership in
`{'1Min', '5Min', '15Min', '30Min'}`. -/
def validResolution (r : String) : Bool :=
  r = "1Min" || r = "5Min" || r = "15Min" || r = "30Min"

/-- Number of minutes of an accepted resolution string (used to build the
session grid; `to_timeframe` in the source). -/
def resolutionMinutes (r : String) : Nat :=
  if r = "1Min" then 1
  else if r = "5Min" then 5
  else if r = "15Min" then 15
  else if r = "30Min" then 30
  else 1

/-- Ceiling division on naturals, `ceil(a / b)` for `b > 0`. -/
def ceilDiv (a b : Nat) : Nat :=
  (a + b - 1) / b

/-- Modelled from the spec: the canonical timestamp grid of a session,
built by `DataProcessor.reindex_and_forward_fill` whose source
(`neural/tools/base.py`) is not part of `src/`.  Spec section 4.3 step 1:
the grid is `open, open+resolution, ...` up to but excluding `close`. -/
def sessionGrid (o c r : Nat) : List Nat :=
  (List.range (ceilDiv (c - o) r)).map fun i => o + i * r

/-- One step of the scan for the latest observation at or before time
`t`: keep the record with the largest timestamp `≤ t` seen so far, later
records winning ties. -/
def ffillStep (t : Nat) (acc : Option (Nat × Int)) (p : Nat × Int) :
    Option (Nat × Int) :=
  if p.1 ≤ t then
    match acc with
    | none => some p
    | some q => if q.1 ≤ p.1 then some p else some q
  else acc

/-- Latest raw observation at or before time `t`: the record with the
largest timestamp `≤ t`, later records winning ties. -/
def lastObsAt (records : List (Nat × Int)) (t : Nat) : Option (Nat × Int) :=
  records.foldl (ffillStep t) none

/-- Modelled from the spec: `DataProcessor.reindex_and_forward_fill`,
whose source (`neural/tools/base.py`) is not part of `src/`.  Spec
section 4.3 step 2: reindex one symbol's raw records onto the session
grid; a grid point with no raw observation receives the most recent prior
observed value within the session, and a grid point preceding the
symbol's first observation stays a missing value (`none`). -/
def reindex_and_forward_fill (records : List (Nat × Int)) (o c r : Nat) :
    List (Option Int) :=
  (sessionGrid o c r).map fun t => (lastObsAt records t).map Prod.snd

/-- Raw per-symbol record returned by the provider for one session:
symbol identifier, timestamp, numeric feature value. -/
structure RawRecord where
  symbol : String
  time : Nat
  value : Int
deriving DecidableEq

/-- Unique symbols present in the raw data, in first-appearance order:
`raw_dataset.index.get_level_values('symbol').unique().tolist()`. -/
def rawSymbols (raw : List RawRecord) : List String :=
  (raw.map RawRecord.symbol).eraseDups

/-- Missing-symbol check of `download_features_to_hdf5`
(src/neural/data/alpaca.py lines 300-307): the loop raises when
`set(dataset_symbols) ^ set(symbols)` (symmetric difference) is
non-empty, i.e. the check passes exactly when the two symbol sets are
equal. -/
def symbolsMatch (raw : List RawRecord) (symbols : List String) : Bool :=
  (rawSymbols raw).all (fun s => symbols.contains s) &&
    symbols.all (fun s => (rawSymbols raw).contains s)

/-- Error raised by the per-session part of the pipeline. -/
inductive SessionError
  | missingSymbolData
deriving DecidableEq

/-- One symbol's raw records in list order
(`raw_dataset.groupby('symbol')` group contents), as (time, value)
pairs. -/
def groupRecords (raw : List RawRecord) (s : String) : List (Nat × Int) :=
  (raw.filter fun rec => rec.symbol = s).map fun rec => (rec.time, rec.value)

/-- Aligned frame of one session: ordered per-symbol column blocks, one
block per symbol (one feature column per symbol in this model), each
column indexed by the session grid. -/
abbrev Frame := List (String × List (Option Int))

/-- Lexicographic comparison of character lists by code point. -/
def chLe : List Char → List Char → Bool
  | [], _ => true
  | _ :: _, [] => false
  | a :: as, b :: bs =>
    if a.val < b.val then true
    else if b.val < a.val then false
    else chLe as bs

/-- Lexicographic order on strings, the order in which pandas sorts
string group keys. -/
def strLe (a b : String) : Bool :=
  chLe a.data b.data

/-- Insertion into a sorted list of strings. -/
def insertSorted (s : String) : List String → List String
  | [] => [s]
  | x :: xs => if strLe s x then s :: x :: xs else x :: insertSorted s xs

/-- Insertion sort of strings in lexicographic order. -/
def sortStrings (l : List String) : List String :=
  l.foldr insertSorted []

/-- Group keys produced by `raw_dataset.groupby('symbol')` after the
reindex to `pd.MultiIndex.from_product([symbols, ...])`: the distinct
requested symbols, iterated in sorted order because pandas `groupby`
defaults to `sort=True`. -/
def sortedGroupKeys (symbols : List String) : List String :=
  sortStrings symbols.dedup

/-- Embedding of the per-session alignment step of
`download_features_to_hdf5` (src/neural/data/alpaca.py lines 300-328):
the symmetric-difference missing-symbol check, then one processed group
per symbol via `reindex_and_forward_fill`, concatenated along columns
(`pd.concat(processed_groups, axis=1)`) in `groupby` key order. -/
def alignSession (raw : List RawRecord) (symbols : List String) (o c r : Nat) :
    Except SessionError Frame :=
  if symbolsMatch raw symbols then
    .ok ((sortedGroupKeys symbols).map fun s =>
      (s, reindex_and_forward_fill (groupRecords raw s) o c r))
  else .error .missingSymbolData

/-- Modelled from the spec: a grid cell of one symbol's column counts as
genuinely observed exactly when the symbol has a raw observation at that
grid timestamp.  A cell whose value only came from forward-filling, and a
cell that stayed missing, are not observed — spec glossary: density is
the fraction of grid cells genuinely observed rather than
forward-filled. -/
def observedCellsOf (records : List (Nat × Int)) (o c r : Nat) : Nat :=
  ((sessionGrid o c r).filter fun t => records.any fun p => p.1 = t).length

/-- One session's inputs as seen by the density tracker: the raw provider
records, the requested symbols, and the session bounds and resolution. -/
structure SessionData where
  raw : List RawRecord
  symbols : List String
  o : Nat
  c : Nat
  r : Nat

/-- Genuinely observed grid cells of one session, summed over the same
per-symbol groups the alignment step builds. -/
def sessionObservedCells (sd : SessionData) : Nat :=
  ((sortedGroupKeys sd.symbols).map fun s =>
    observedCellsOf (groupRecords sd.raw s) sd.o sd.c sd.r).sum

/-- All grid cells of one session: one full session grid per per-symbol
group. -/
def sessionTotalCells (sd : SessionData) : Nat :=
  ((sortedGroupKeys sd.symbols).map fun _ =>
    (sessionGrid sd.o sd.c sd.r).length).sum

/-- Modelled from the spec: the cumulative state behind
`DataProcessor.running_dataset_density`, whose source
(`neural/tools/base.py`) is not part of `src/`.  Spec section 3:
cumulative observed-cell and total-cell counters across all processed
sessions. -/
structure DensityState where
  observed : Nat
  total : Nat
deriving DecidableEq

/-- Modelled from the spec: one session's update of the density tracker,
spec section 4.3 step 5 — add the session's `(observed_cells,
total_cells)` to the cumulative counters, where a cell is observed only
if its grid point carries a raw observation (forward-filled cells do not
count). -/
def updateDensity (st : DensityState) (sd : SessionData) : DensityState :=
  ⟨st.observed + sessionObservedCells sd, st.total + sessionTotalCells sd⟩

/-- Modelled from the spec: `DataProcessor.running_dataset_density`,
whose source (`neural/tools/base.py`) is not part of `src/` — the
fraction of all grid cells across all processed sessions that were
genuinely observed, recomputed from the cumulative counters. -/
def running_dataset_density (st : DensityState) : ℚ :=
  if st.total = 0 then 0 else (st.observed : ℚ) / (st.total : ℚ)

/-- Metadata record attached to each written chunk
(`DatasetMetadata` in `neural/data/enums.py`, constructed at
src/neural/data/alpaca.py lines 335-345). -/
structure DatasetMetadata where
  columnSchema : List String
  assetClass : AssetClass
  symbols : List String
  start : Nat
  stop : Nat
  resolution : String
  nRows : Nat
  nColumns : Nat
deriving DecidableEq

/-- One stored dataset: its aggregate metadata plus the accumulated
feature matrix (rows of optional numeric cells; a `none` cell is the
`NaN` written for a missing value). -/
structure StoredDataset where
  metadata : DatasetMetadata
  data : List (List (Option Int))
deriving DecidableEq

/-- The HDF5 file content: named datasets. -/
abbrev Store := List (String × StoredDataset)

/-- Lookup of a named dataset in the store. -/
def lookupDataset (store : Store) (name : String) : Option StoredDataset :=
  (store.find? fun p => p.1 = name).map Prod.snd

/-- Error raised by an incompatible append. -/
inductive AppendError
  | incompatibleAppend
deriving DecidableEq

/-- Compatibility of a new chunk with a stored dataset, spec section 4.5:
column schema, resolution, asset class and symbol list must exactly
match. -/
def compatibleChunk (old new : DatasetMetadata) : Bool :=
  old.columnSchema = new.columnSchema && old.resolution = new.resolution &&
    decide (old.assetClass = new.assetClass) && old.symbols = new.symbols

/-- Extension of stored metadata by a committed chunk, spec section 4.5:
the row count and the end timestamp are extended, everything else is
kept. -/
def extendMetadata (old new : DatasetMetadata) : DatasetMetadata :=
  { old with nRows := old.nRows + new.nRows, stop := new.stop }

/-- Modelled from the spec: `DatasetIO.write_to_hdf5`, whose source
(`neural/tools/base.py`) is not part of `src/`.  Spec section 4.5: if the
name is absent the dataset is created from the chunk; if present, an
incompatible chunk fails leaving the store unchanged, and a compatible
chunk appends the rows and extends the stored metadata.  The pair
returned is (error if any, resulting store). -/
def write_to_hdf5 (store : Store) (name : String)
    (chunk : List (List (Option Int))) (md : DatasetMetadata) :
    Option AppendError × Store :=
  match store with
  | [] => (none, [(name, ⟨md, chunk⟩)])
  | (n, ds) :: rest =>
    if n = name then
      if compatibleChunk ds.metadata md then
        (none, (n, ⟨extendMetadata ds.metadata md, ds.data ++ chunk⟩) :: rest)
      else (some .incompatibleAppend, (n, ds) :: rest)
    else
      let out := write_to_hdf5 rest name chunk md
      (out.1, (n, ds) :: out.2)

/-- Number of rows of an aligned frame (the grid length of its first
block; every block has the same length by construction). -/
def frameRows (frame : Frame) : Nat :=
  match frame with
  | [] => 0
  | b :: _ => b.2.length

/-- Feature matrix written for one session: row `i` collects cell `i` of
every column block (`features_df.to_numpy` at src/neural/data/alpaca.py
line 332). -/
def frameMatrix (frame : Frame) : List (List (Option Int)) :=
  (List.range (frameRows frame)).map fun i => frame.map fun b => b.2.getD i none

/-- Modelled from the spec: `create_column_schema` from
`neural/tools/base.py`, which is not part of `src/` — the ordered column
names of the aligned frame (one feature column per symbol in this
model). -/
def columnSchemaOf (frame : Frame) : List String :=
  frame.map Prod.fst

/-- Errors surfaced by `download_features_to_hdf5`.  The first four are
the input-validation failures of spec section 7; the last two arise
inside the session loop. -/
inductive PipelineError
  | invalidPath
  | validation (e : ValidationError)
  | invalidResolution
  | emptySchedule
  | missingSymbolData
  | incompatibleAppend
deriving DecidableEq

/-- Input-validation errors, spec section 7: empty/duplicate/unknown/
untradable/inactive/mixed-asset-class symbols, invalid resolution, empty
schedule (and the path check that precedes them). -/
def isValidationError (e : PipelineError) : Bool :=
  match e with
  | .invalidPath => true
  | .validation _ => true
  | .invalidResolution => true
  | .emptySchedule => true
  | _ => false

/-- External collaborators of `download_features_to_hdf5`: the catalog,
the outcome of `validate_path`, the trading calendar
(`Calendar.get_schedule`), and the raw-data provider.  A fetch is
observed through the trace of windows passed to `download_raw_dataset`. -/
structure Env where
  catalog : List Asset
  pathValid : Bool
  schedule : AssetClass → List (Nat × Nat)
  fetchData : Nat × Nat → List RawRecord

/-- Result of one pipeline run: the returned value or error, the trace of
raw-data fetch windows that were issued, and the final store. -/
structure PipelineResult where
  result : Except PipelineError (Option DatasetMetadata)
  fetches : List (Nat × Nat)
  store : Store

/-- Session loop of `download_features_to_hdf5`
(src/neural/data/alpaca.py lines 290-360): for every `(market_open,
market_close)` of the schedule, fetch the raw data (recorded in the
trace), align the session, build the chunk metadata, and write the chunk;
the first session failure aborts the run.  When the loop finishes the
source executes `return None`, modelled as `.ok none`. -/
def processSessions (env : Env) (name : String) (symbols : List String)
    (ac : AssetClass) (resolution : String) :
    List (Nat × Nat) → List (Nat × Nat) → Store → PipelineResult
  | [], fetches, store => ⟨.ok none, fetches, store⟩
  | (o, c) :: rest, fetches, store =>
    let raw := env.fetchData (o, c)
    let fetches' := fetches ++ [(o, c)]
    match alignSession raw symbols o c (resolutionMinutes resolution) with
    | .error _ => ⟨.error .missingSymbolData, fetches', store⟩
    | .ok frame =>
      let md : DatasetMetadata :=
        ⟨columnSchemaOf frame, ac, symbols, o, c, resolution,
          frameRows frame, frame.length⟩
      match write_to_hdf5 store name (frameMatrix frame) md with
      | (some _, store') => ⟨.error .incompatibleAppend, fetches', store'⟩
      | (none, store') => processSessions env name symbols ac resolution rest fetches' store'

/-- Embedding of `AlpacaDataFetcher.download_features_to_hdf5`
(src/neural/data/alpaca.py lines 241-360): `validate_path`, then
`_validate_symbols`, then `_validate_resolution`, then the calendar
schedule with its emptiness check, then the session loop.  No fetch
happens and the store is untouched until the loop starts. -/
def download_features_to_hdf5 (env : Env) (store : Store) (name : String)
    (symbols : List String) (resolution : String) : PipelineResult :=
  if env.pathValid = false then ⟨.error .invalidPath, [], store⟩
  else
    match validateSymbols env.catalog symbols with
    | .error e => ⟨.error (.validation e), [], store⟩
    | .ok ac =>
      if validResolution resolution = false then ⟨.error .invalidResolution, [], store⟩
      else if (env.schedule ac).length = 0 then ⟨.error .emptySchedule, [], store⟩
      else processSessions env name symbols ac resolution (env.schedule ac) [] store

/-! Helper lemmas. -/

theorem findSome?_eq_none_of_forall {α β : Type} (f : α → Option β) :
    ∀ l : List α, (∀ x ∈ l, f x = none) → l.findSome? f = none := by
  intro l h
  induction l with
  | nil => rfl
  | cons x t ih =>
    rw [List.findSome?_cons, h x (by simp)]
    exact ih fun y hy => h y (by simp [hy])

theorem findSome?_append_of_none {α β : Type} (f : α → Option β) (pre l : List α)
    (h : ∀ t ∈ pre, f t = none) : (pre ++ l).findSome? f = l.findSome? f := by
  induction pre with
  | nil => rfl
  | cons x t ih =>
    rw [List.cons_append, List.findSome?_cons, h x (by simp)]
    exact ih fun y hy => h y (by simp [hy])

theorem countOcc_le_one_of_nodup {l : List String} (h : l.Nodup) (s : String) :
    countOcc l s ≤ 1 := by
  induction l with
  | nil => simp [countOcc]
  | cons x t ih =>
    rw [List.nodup_cons] at h
    by_cases hx : x = s
    · subst hx
      have ht : countOcc t x = 0 := by
        simp only [countOcc, List.length_eq_zero, List.filter_eq_nil_iff]
        intro a ha
        simp only [decide_eq_true_eq]
        intro haa
        exact h.1 (haa ▸ ha)
      have hstep : countOcc (x :: t) x = countOcc t x + 1 := by
        simp [countOcc, List.filter_cons]
      omega
    · have := ih h.2
      simpa [countOcc, List.filter_cons, hx] using this

theorem dup_filter_eq_nil_of_nodup {l : List String} (h : l.Nodup) :
    (l.dedup.filter fun s => 1 < countOcc l s) = [] := by
  rw [List.filter_eq_nil_iff]
  intro s _
  have := countOcc_le_one_of_nodup h s
  simp only [decide_eq_true_eq]
  omega

theorem filterMap_eq_map_const {α β : Type} (f : α → Option β) (c : β) :
    ∀ l : List α, (∀ x ∈ l, f x = some c) → l.filterMap f = l.map fun _ => c := by
  intro l h
  induction l with
  | nil => rfl
  | cons x t ih =>
    rw [List.filterMap_cons, h x (by simp), List.map_cons]
    rw [ih fun y hy => h y (by simp [hy])]

theorem dedup_const {α : Type} [DecidableEq α] (c : α) :
    ∀ l : List α, l ≠ [] → (∀ x ∈ l, x = c) → l.dedup = [c]
  | [], h, _ => absurd rfl h
  | [x], _, hx => by simp [hx x (by simp)]
  | x :: y :: t, _, hx => by
    have hy : (y :: t).dedup = [c] :=
      dedup_const c (y :: t) (by simp) fun z hz => hx z (by simp [hz])
    have hmem : x ∈ y :: t := by
      have h1 : x = c := hx x (by simp)
      have h2 : y = c := hx y (by simp)
      simp [h1, h2]
    rw [List.dedup_cons_of_mem hmem, hy]

/-! Claim theorems. -/

/-- C1: for every non-empty, duplicate-free list of symbols that all pass
the per-symbol catalog checks (known, tradable, active),
`_validate_symbols` returns the single common asset class when all
resolved symbols share one, and fails with the mixed-asset-class error
when the resolved symbols span more than one asset class. -/
theorem validateSymbols_single_asset_class
    (catalog : List Asset) (symbols : List String)
    (hne : symbols ≠ []) (hnd : symbols.Nodup)
    (hok : ∀ s ∈ symbols, checkSymbol catalog s = none) :
    (∀ cls : AssetClass,
      (∀ s ∈ symbols, (symbolsMap catalog s).map Asset.asset_class = some cls) →
      validateSymbols catalog symbols = .ok cls) ∧
    (∀ s₁ ∈ symbols, ∀ s₂ ∈ symbols, ∀ c₁ c₂ : AssetClass,
      (symbolsMap catalog s₁).map Asset.asset_class = some c₁ →
      (symbolsMap catalog s₂).map Asset.asset_class = some c₂ →
      c₁ ≠ c₂ →
      validateSymbols catalog symbols = .error .mixedAssetClass) := by
  have hlen : ¬ (symbols.length = 0) := by simpa [List.length_eq_zero] using hne
  have hdup := dup_filter_eq_nil_of_nodup hnd
  have hfind : symbols.findSome? (checkSymbol catalog) = none :=
    findSome?_eq_none_of_forall _ _ hok
  constructor
  · intro cls hcls
    have hclasses :
        (symbols.filterMap fun s => (symbolsMap catalog s).map Asset.asset_class) =
          symbols.map fun _ => cls :=
      filterMap_eq_map_const _ cls symbols hcls
    have hded : (symbols.map fun _ => cls).dedup = [cls] :=
      dedup_const cls _ (by simpa using hne) (by simp)
    unfold validateSymbols
    rw [if_neg hlen, if_pos hdup]
    rw [hfind, hclasses, hded]
  · intro s₁ hs₁ s₂ hs₂ c₁ c₂ hc₁ hc₂ hne'
    have hm₁ : c₁ ∈ (symbols.filterMap fun s =>
        (symbolsMap catalog s).map Asset.asset_class).dedup := by
      rw [List.mem_dedup, List.mem_filterMap]
      exact ⟨s₁, hs₁, hc₁⟩
    have hm₂ : c₂ ∈ (symbols.filterMap fun s =>
        (symbolsMap catalog s).map Asset.asset_class).dedup := by
      rw [List.mem_dedup, List.mem_filterMap]
      exact ⟨s₂, hs₂, hc₂⟩
    have hnotsingle : ∀ ch : AssetClass,
        (symbols.filterMap fun s =>
          (symbolsMap catalog s).map Asset.asset_class).dedup ≠ [ch] := by
      intro ch hch
      rw [hch] at hm₁ hm₂
      simp only [List.mem_singleton] at hm₁ hm₂
      exact hne' (hm₁.trans hm₂.symm)
    unfold validateSymbols
    rw [if_neg hlen, if_pos hdup]
    rw [hfind]
    rcases hd : (symbols.filterMap fun s =>
        (symbolsMap catalog s).map Asset.asset_class).dedup with _ | ⟨c, _ | ⟨d, t⟩⟩
    · rfl
    · exact absurd hd (hnotsingle c)
    · rfl

/-- Witness for C1 on a concrete catalog: a two-symbol equity list
validates to the equity asset class, and an equity-plus-crypto list fails
with the mixed-asset-class error. -/
theorem validateSymbols_single_asset_class_witness :
    validateSymbols
      [⟨"AAA", .usEquity, true, .active, true, true⟩,
       ⟨"BBB", .usEquity, true, .active, true, true⟩,
       ⟨"CCC", .crypto, true, .active, true, true⟩]
      ["AAA", "BBB"] = .ok .usEquity ∧
    validateSymbols
      [⟨"AAA", .usEquity, true, .active, true, true⟩,
       ⟨"BBB", .usEquity, true, .active, true, true⟩,
       ⟨"CCC", .crypto, true, .active, true, true⟩]
      ["AAA", "CCC"] = .error .mixedAssetClass := by
  constructor
  · exact (validateSymbols_single_asset_class _ ["AAA", "BBB"]
      (by decide) (by decide) (by decide)).1 .usEquity (by decide)
  · exact (validateSymbols_single_asset_class _ ["AAA", "CCC"]
      (by decide) (by decide) (by decide)).2 "AAA" (by decide) "CCC" (by decide)
      .usEquity .crypto (by decide) (by decide) (by decide)

/-- C2: in a non-empty duplicate-free symbol list, the first symbol whose
per-symbol check fails determines the error: unknown symbols fail with
the unknown-symbol error, known but untradable symbols with the
not-tradable error, and known tradable but inactive symbols with the
inactive-symbol error. -/
theorem validateSymbols_per_symbol_errors
    (catalog : List Asset) (symbols pre post : List String) (s : String)
    (hsplit : symbols = pre ++ s :: post) (hnd : symbols.Nodup)
    (hpre : ∀ t ∈ pre, checkSymbol catalog t = none) :
    (symbolsMap catalog s = none →
      validateSymbols catalog symbols = .error (.unknownSymbol s)) ∧
    (∀ a : Asset, symbolsMap catalog s = some a → a.tradable = false →
      validateSymbols catalog symbols = .error (.notTradable s)) ∧
    (∀ a : Asset, symbolsMap catalog s = some a → a.tradable = true →
      a.status ≠ .active →
      validateSymbols catalog symbols = .error (.inactiveSymbol s)) := by
  have hne : symbols ≠ [] := by
    rw [hsplit]
    exact List.append_ne_nil_of_right_ne_nil _ (by simp)
  have hlen : ¬ (symbols.length = 0) := by simpa [List.length_eq_zero] using hne
  have hdup := dup_filter_eq_nil_of_nodup hnd
  have hkey : ∀ e : ValidationError, checkSymbol catalog s = some e →
      validateSymbols catalog symbols = .error e := by
    intro e he
    have hfind : symbols.findSome? (checkSymbol catalog) = some e := by
      rw [hsplit, findSome?_append_of_none _ _ _ hpre, List.findSome?_cons, he]
    unfold validateSymbols
    rw [if_neg hlen, if_pos hdup, hfind]
  refine ⟨?_, ?_, ?_⟩
  · intro hnone
    exact hkey _ (by simp [checkSymbol, hnone])
  · intro a ha htr
    exact hkey _ (by simp [checkSymbol, ha, htr])
  · intro a ha htr hst
    exact hkey _ (by simp [checkSymbol, ha, htr, hst])

/-- Witness for C2 on a concrete catalog: an unknown symbol, an
untradable symbol and an inactive symbol each produce their dedicated
error. -/
theorem validateSymbols_per_symbol_errors_witness :
    validateSymbols
      [⟨"AAA", .usEquity, true, .active, true, true⟩,
       ⟨"DDD", .usEquity, false, .active, true, true⟩,
       ⟨"EEE", .usEquity, true, .inactive, true, true⟩]
      ["AAA", "ZZZ"] = .error (.unknownSymbol "ZZZ") ∧
    validateSymbols
      [⟨"AAA", .usEquity, true, .active, true, true⟩,
       ⟨"DDD", .usEquity, false, .active, true, true⟩,
       ⟨"EEE", .usEquity, true, .inactive, true, true⟩]
      ["AAA", "DDD"] = .error (.notTradable "DDD") ∧
    validateSymbols
      [⟨"AAA", .usEquity, true, .active, true, true⟩,
       ⟨"DDD", .usEquity, false, .active, true, true⟩,
       ⟨"EEE", .usEquity, true, .inactive, true, true⟩]
      ["AAA", "EEE"] = .error (.inactiveSymbol "EEE") := by
  refine ⟨?_, ?_, ?_⟩
  · exact (validateSymbols_per_symbol_errors _ ["AAA", "ZZZ"] ["AAA"] [] "ZZZ"
      (by decide) (by decide) (by decide)).1 (by decide)
  · exact (validateSymbols_per_symbol_errors _ ["AAA", "DDD"] ["AAA"] [] "DDD"
      (by decide) (by decide) (by decide)).2.1
      ⟨"DDD", .usEquity, false, .active, true, true⟩ (by decide) (by decide)
  · exact (validateSymbols_per_symbol_errors _ ["AAA", "EEE"] ["AAA"] [] "EEE"
      (by decide) (by decide) (by decide)).2.2
      ⟨"EEE", .usEquity, true, .inactive, true, true⟩ (by decide) (by decide) (by decide)

theorem ffillStep_none (t : Nat) (p : Nat × Int) :
    ffillStep t none p = if p.1 ≤ t then some p else none := by
  unfold ffillStep
  by_cases h : p.1 ≤ t <;> simp [h]

theorem ffillStep_some (t : Nat) (a p : Nat × Int) :
    ffillStep t (some a) p =
      if p.1 ≤ t then (if a.1 ≤ p.1 then some p else some a) else some a := by
  unfold ffillStep
  by_cases h : p.1 ≤ t <;> simp [h]

theorem ffillStep_keeps (t : Nat) (acc : Option (Nat × Int)) (p : Nat × Int)
    (ht : ¬ p.1 ≤ t) : ffillStep t acc p = acc := by
  cases acc with
  | none => rw [ffillStep_none, if_neg ht]
  | some a => rw [ffillStep_some, if_neg ht]

theorem ffill_foldl_spec (t : Nat) :
    ∀ (records : List (Nat × Int)) (acc : Option (Nat × Int)),
      (records.foldl (ffillStep t) acc = none →
        acc = none ∧ ∀ p ∈ records, t < p.1) ∧
      (∀ p : Nat × Int, records.foldl (ffillStep t) acc = some p →
        ((p ∈ records ∧ p.1 ≤ t) ∨ acc = some p) ∧
        (∀ q ∈ records, q.1 ≤ t → q.1 ≤ p.1) ∧
        (∀ q : Nat × Int, acc = some q → q.1 ≤ p.1)) := by
  intro records
  induction records with
  | nil =>
    intro acc
    constructor
    · intro h
      exact ⟨h, by simp⟩
    · intro p hp
      have hp' : acc = some p := hp
      refine ⟨Or.inr hp', by simp, ?_⟩
      intro q hq
      rw [hp'] at hq
      rw [Option.some.inj hq]
  | cons p₀ rest ih =>
    intro acc
    have hfold : (p₀ :: rest).foldl (ffillStep t) acc =
        rest.foldl (ffillStep t) (ffillStep t acc p₀) := rfl
    constructor
    · intro h
      rw [hfold] at h
      obtain ⟨hstep, hrest⟩ := (ih (ffillStep t acc p₀)).1 h
      by_cases ht₀ : p₀.1 ≤ t
      · exfalso
        cases hacc : acc with
        | none =>
          rw [hacc, ffillStep_none, if_pos ht₀] at hstep
          exact Option.noConfusion hstep
        | some q =>
          rw [hacc, ffillStep_some, if_pos ht₀] at hstep
          by_cases hq : q.1 ≤ p₀.1
          · rw [if_pos hq] at hstep; exact Option.noConfusion hstep
          · rw [if_neg hq] at hstep; exact Option.noConfusion hstep
      · rw [ffillStep_keeps t acc p₀ ht₀] at hstep
        refine ⟨hstep, ?_⟩
        intro p hp
        rcases List.mem_cons.mp hp with rfl | hp'
        · omega
        · exact hrest p hp'
    · intro p hp
      rw [hfold] at hp
      obtain ⟨hcase, hmax, hcarry⟩ := (ih (ffillStep t acc p₀)).2 p hp
      by_cases ht₀ : p₀.1 ≤ t
      · have hstep₀ : ∀ q : Nat × Int, ffillStep t acc p₀ = some q →
            (q = p₀ ∨ acc = some q) := by
          intro q hq
          cases hacc : acc with
          | none =>
            rw [hacc, ffillStep_none, if_pos ht₀] at hq
            exact Or.inl (Option.some.inj hq).symm
          | some a =>
            rw [hacc, ffillStep_some, if_pos ht₀] at hq
            by_cases ha : a.1 ≤ p₀.1
            · rw [if_pos ha] at hq
              exact Or.inl (Option.some.inj hq).symm
            · rw [if_neg ha] at hq
              exact Or.inr (by rw [Option.some.inj hq])
        have hp₀le : p₀.1 ≤ p.1 := by
          cases hacc : acc with
          | none =>
            refine hcarry p₀ ?_
            rw [hacc, ffillStep_none, if_pos ht₀]
          | some a =>
            by_cases ha : a.1 ≤ p₀.1
            · refine hcarry p₀ ?_
              rw [hacc, ffillStep_some, if_pos ht₀, if_pos ha]
            · have hap : a.1 ≤ p.1 := by
                refine hcarry a ?_
                rw [hacc, ffillStep_some, if_pos ht₀, if_neg ha]
              omega
        refine ⟨?_, ?_, ?_⟩
        · rcases hcase with ⟨hmem, hle⟩ | hacc'
          · exact Or.inl ⟨List.mem_cons_of_mem _ hmem, hle⟩
          · rcases hstep₀ p hacc' with rfl | hq
            · exact Or.inl ⟨List.mem_cons_self _ _, ht₀⟩
            · exact Or.inr hq
        · intro q hq hqt
          rcases List.mem_cons.mp hq with rfl | hq'
          · exact hp₀le
          · exact hmax q hq' hqt
        · intro q hq
          cases hacc : acc with
          | none =>
            rw [hacc] at hq
            exact Option.noConfusion hq
          | some a =>
            rw [hacc] at hq
            obtain rfl : a = q := Option.some.inj hq
            by_cases ha : a.1 ≤ p₀.1
            · omega
            · refine hcarry a ?_
              rw [hacc, ffillStep_some, if_pos ht₀, if_neg ha]
      · rw [ffillStep_keeps t acc p₀ ht₀] at hcase hcarry
        refine ⟨?_, ?_, ?_⟩
        · rcases hcase with ⟨hmem, hle⟩ | h'
          · exact Or.inl ⟨List.mem_cons_of_mem _ hmem, hle⟩
          · exact Or.inr h'
        · intro q hq hqt
          rcases List.mem_cons.mp hq with rfl | hq'
          · omega
          · exact hmax q hq' hqt
        · exact hcarry

theorem lastObsAt_none_iff (records : List (Nat × Int)) (t : Nat) :
    lastObsAt records t = none ↔ ∀ p ∈ records, t < p.1 := by
  constructor
  · intro h
    exact ((ffill_foldl_spec t records none).1 h).2
  · intro h
    cases hres : lastObsAt records t with
    | none => rfl
    | some p =>
      obtain ⟨hcase, _, _⟩ := (ffill_foldl_spec t records none).2 p hres
      rcases hcase with ⟨hmem, hle⟩ | hbad
      · have := h p hmem
        omega
      · exact Option.noConfusion hbad

theorem lastObsAt_some_spec (records : List (Nat × Int)) (t : Nat)
    (p : Nat × Int) (hres : lastObsAt records t = some p) :
    p ∈ records ∧ p.1 ≤ t ∧ ∀ q ∈ records, q.1 ≤ t → q.1 ≤ p.1 := by
  obtain ⟨hcase, hmax, _⟩ := (ffill_foldl_spec t records none).2 p hres
  rcases hcase with ⟨hmem, hle⟩ | hbad
  · exact ⟨hmem, hle, hmax⟩
  · exact Option.noConfusion hbad

theorem lt_ceilDiv_iff (n r i : Nat) (hr : 0 < r) :
    i < ceilDiv n r ↔ i * r < n := by
  unfold ceilDiv
  rw [Nat.lt_iff_add_one_le, Nat.le_div_iff_mul_le hr]
  have hmul : (i + 1) * r = i * r + r := by ring
  rw [hmul]
  generalize i * r = m
  omega

theorem sessionGrid_length (o c r : Nat) :
    (sessionGrid o c r).length = ceilDiv (c - o) r := by
  simp [sessionGrid]

theorem mem_sessionGrid (o c r : Nat) (hr : 0 < r) (t : Nat) :
    t ∈ sessionGrid o c r ↔ (∃ i : Nat, t = o + i * r) ∧ t < c := by
  unfold sessionGrid
  simp only [List.mem_map, List.mem_range]
  constructor
  · rintro ⟨i, hi, rfl⟩
    rw [lt_ceilDiv_iff _ _ _ hr] at hi
    refine ⟨⟨i, rfl⟩, ?_⟩
    omega
  · rintro ⟨⟨i, rfl⟩, hlt⟩
    refine ⟨i, ?_, rfl⟩
    rw [lt_ceilDiv_iff _ _ _ hr]
    omega

theorem symbolsMatch_iff (raw : List RawRecord) (symbols : List String) :
    symbolsMatch raw symbols = true ↔
      ((∀ s ∈ rawSymbols raw, s ∈ symbols) ∧
        (∀ s ∈ symbols, s ∈ rawSymbols raw)) := by
  unfold symbolsMatch
  rw [Bool.and_eq_true, List.all_eq_true, List.all_eq_true]
  constructor
  · intro ⟨h₁, h₂⟩
    constructor
    · intro s hs
      have := h₁ s hs
      simpa using this
    · intro s hs
      have := h₂ s hs
      simpa using this
  · intro ⟨h₁, h₂⟩
    constructor
    · intro s hs
      simpa using h₁ s hs
    · intro s hs
      simpa using h₂ s hs

/-- C4: for every session grid point, the aligned value of a symbol is
the most recent raw observation at or before that grid point, and a grid
point preceding the symbol's first observation in the session stays an
explicit missing value — it is never filled. -/
theorem reindex_and_forward_fill_spec (records : List (Nat × Int))
    (o c r i : Nat) (hi : i < (sessionGrid o c r).length) :
    ((∀ p ∈ records, (sessionGrid o c r).getD i 0 < p.1) →
      (reindex_and_forward_fill records o c r).getD i none = none) ∧
    ((∃ p ∈ records, p.1 ≤ (sessionGrid o c r).getD i 0) →
      ∃ p ∈ records, p.1 ≤ (sessionGrid o c r).getD i 0 ∧
        (reindex_and_forward_fill records o c r).getD i none = some p.2 ∧
        ∀ q ∈ records, q.1 ≤ (sessionGrid o c r).getD i 0 → q.1 ≤ p.1) := by
  have hval : (reindex_and_forward_fill records o c r).getD i none =
      (lastObsAt records ((sessionGrid o c r).getD i 0)).map Prod.snd := by
    unfold reindex_and_forward_fill
    rw [List.getD_eq_getElem _ _ (by simpa using hi),
      List.getD_eq_getElem _ _ hi, List.getElem_map]
  constructor
  · intro hall
    rw [hval, (lastObsAt_none_iff _ _).mpr hall]
    rfl
  · intro ⟨p₀, hp₀, hle₀⟩
    cases hres : lastObsAt records ((sessionGrid o c r).getD i 0) with
    | none =>
      have := (lastObsAt_none_iff _ _).mp hres p₀ hp₀
      omega
    | some p =>
      obtain ⟨hmem, hle, hmax⟩ := lastObsAt_some_spec _ _ _ hres
      refine ⟨p, hmem, hle, ?_, hmax⟩
      rw [hval, hres]
      rfl

/-- Witness for C4 on a concrete input: a single record at time 3 in a
session with grid points 0 and 5 — the grid point 0 (before the first
observation) stays missing, the grid point 5 receives the value of the
time-3 record, the most recent observation at or before it. -/
theorem reindex_and_forward_fill_spec_witness :
    (reindex_and_forward_fill [((3 : Nat), (7 : Int))] 0 10 5).getD 0 none = none ∧
    (∃ p ∈ [((3 : Nat), (7 : Int))], p.1 ≤ (sessionGrid 0 10 5).getD 1 0 ∧
      (reindex_and_forward_fill [((3 : Nat), (7 : Int))] 0 10 5).getD 1 none = some p.2 ∧
      ∀ q ∈ [((3 : Nat), (7 : Int))], q.1 ≤ (sessionGrid 0 10 5).getD 1 0 → q.1 ≤ p.1) := by
  constructor
  · exact (reindex_and_forward_fill_spec [((3 : Nat), (7 : Int))] 0 10 5 0
      (by decide)).1 (by decide)
  · exact (reindex_and_forward_fill_spec [((3 : Nat), (7 : Int))] 0 10 5 1
      (by decide)).2 ⟨((3 : Nat), (7 : Int)), by decide, by decide⟩

/-- C3, evaluated at the failing input: requested symbol order
["BBB", "AAA"] for one session [0, 10) at resolution 5.  Every block has
exactly `ceilDiv (10 - 0) 5 = 2` rows as the claim states, but the
per-symbol blocks come out in lexicographically sorted order
["AAA", "BBB"] — the `groupby('symbol')` default `sort=True` ordering —
not in the caller-specified order ["BBB", "AAA"] that the claim (and the
code's own reindex comment) promises. -/
theorem alignSession_not_caller_order :
    alignSession [⟨"BBB", 0, 1⟩, ⟨"AAA", 3, 2⟩] ["BBB", "AAA"] 0 10 5 =
      .ok [("AAA", [none, some 2]), ("BBB", [some 1, some 1])] ∧
    ceilDiv (10 - 0) 5 = 2 ∧
    (["AAA", "BBB"] : List String) ≠ ["BBB", "AAA"] := by
  refine ⟨by decide, by decide, by decide⟩

/-- C5 counterexample: requested symbols ["AAA"], provider returns
records for both AAA and an unrequested BBB.  Every requested symbol has
at least one raw record, yet the session still fails with the
missing-symbol error — refuting the claim that the error occurs only when
some requested symbol has zero records. -/
theorem alignSession_error_despite_full_data :
    ("AAA" ∈ rawSymbols [⟨"AAA", 0, 1⟩, ⟨"BBB", 0, 2⟩]) ∧
    alignSession [⟨"AAA", 0, 1⟩, ⟨"BBB", 0, 2⟩] ["AAA"] 0 10 5 =
      .error .missingSymbolData := by
  refine ⟨by decide, by rfl⟩

/-- C5 as amended: session alignment fails with the missing-symbol error
if and only if the set of symbols present in the returned data differs
from the requested set — some requested symbol produced zero raw records,
or the provider returned data for a symbol that was not requested. -/
theorem alignSession_error_iff (raw : List RawRecord) (symbols : List String)
    (o c r : Nat) :
    alignSession raw symbols o c r = .error .missingSymbolData ↔
      ((∃ s ∈ symbols, s ∉ rawSymbols raw) ∨
        (∃ s ∈ rawSymbols raw, s ∉ symbols)) := by
  unfold alignSession
  by_cases h : symbolsMatch raw symbols = true
  · rw [if_pos h]
    obtain ⟨h₁, h₂⟩ := (symbolsMatch_iff raw symbols).mp h
    constructor
    · intro hcontr
      exact Except.noConfusion hcontr
    · rintro (⟨s, hs, hns⟩ | ⟨s, hs, hns⟩)
      · exact absurd (h₂ s hs) hns
      · exact absurd (h₁ s hs) hns
  · rw [if_neg h]
    constructor
    · intro _
      by_contra hcontr
      push_neg at hcontr
      obtain ⟨hc₁, hc₂⟩ := hcontr
      exact h ((symbolsMatch_iff raw symbols).mpr ⟨hc₂, hc₁⟩)
    · intro _
      rfl

/-- C9: the per-session check compares the symmetric difference of the
returned and requested symbol sets, so the session fails with the
missing-symbol error whenever the provider returns data for a symbol that
was not requested, even when every requested symbol is present in the
returned data. -/
theorem alignSession_fails_on_extra_symbol (raw : List RawRecord)
    (symbols : List String) (o c r : Nat) (x : String)
    (_hreq : ∀ s ∈ symbols, s ∈ rawSymbols raw)
    (hx : x ∈ rawSymbols raw) (hnx : x ∉ symbols) :
    alignSession raw symbols o c r = .error .missingSymbolData := by
  unfold alignSession
  rw [if_neg]
  intro hmatch
  exact absurd ((symbolsMatch_iff raw symbols).mp hmatch).1 fun hall =>
    hnx (hall x hx)

/-- Witness for C9: requested ["AAA"], provider returns AAA plus an
unrequested CCC — alignment fails with the missing-symbol error. -/
theorem alignSession_fails_on_extra_symbol_witness :
    alignSession [⟨"AAA", 0, 1⟩, ⟨"CCC", 2, 3⟩] ["AAA"] 0 10 5 =
      .error .missingSymbolData :=
  alignSession_fails_on_extra_symbol [⟨"AAA", 0, 1⟩, ⟨"CCC", 2, 3⟩] ["AAA"]
    0 10 5 "CCC" (by decide) (by decide) (by decide)

theorem write_unchanged_on_error (name : String)
    (chunk : List (List (Option Int))) (md : DatasetMetadata) :
    ∀ store : Store, (write_to_hdf5 store name chunk md).1.isSome = true →
      (write_to_hdf5 store name chunk md).2 = store := by
  intro store
  induction store with
  | nil =>
    intro h
    simp [write_to_hdf5] at h
  | cons hd rest ih =>
    obtain ⟨n, ds₀⟩ := hd
    by_cases hn : n = name
    · by_cases hc : compatibleChunk ds₀.metadata md = true
      · intro h
        simp [write_to_hdf5, hn, hc] at h
      · intro _
        simp [write_to_hdf5, hn, hc]
    · intro h
      simp only [write_to_hdf5, if_neg hn] at h ⊢
      rw [ih h]

theorem write_commits (name : String)
    (chunk : List (List (Option Int))) (md : DatasetMetadata) :
    ∀ store : Store, (write_to_hdf5 store name chunk md).1 = none →
      lookupDataset (write_to_hdf5 store name chunk md).2 name =
        some (match lookupDataset store name with
          | some ds => ⟨extendMetadata ds.metadata md, ds.data ++ chunk⟩
          | none => ⟨md, chunk⟩) := by
  intro store
  induction store with
  | nil =>
    intro _
    simp [write_to_hdf5, lookupDataset]
  | cons hd rest ih =>
    obtain ⟨n, ds₀⟩ := hd
    by_cases hn : n = name
    · by_cases hc : compatibleChunk ds₀.metadata md = true
      · intro _
        simp [write_to_hdf5, lookupDataset, hn, hc]
      · intro h
        simp [write_to_hdf5, hn, hc] at h
    · intro h
      simp only [write_to_hdf5, if_neg hn] at h ⊢
      have hskipNew : lookupDataset
          ((n, ds₀) :: (write_to_hdf5 rest name chunk md).2) name =
          lookupDataset (write_to_hdf5 rest name chunk md).2 name := by
        simp [lookupDataset, List.find?, hn]
      have hskipOld : lookupDataset ((n, ds₀) :: rest) name =
          lookupDataset rest name := by
        simp [lookupDataset, List.find?, hn]
      rw [hskipNew, hskipOld]
      exact ih h

/-- C7: an append to a named dataset is atomic — on failure the store
(hence the dataset's row count and end timestamp) is exactly what it was
before the call, and on success the named dataset carries both the
appended matrix rows and the extended metadata (row count increased by
the chunk's, end timestamp advanced to the chunk's). -/
theorem write_to_hdf5_atomic (store : Store) (name : String)
    (chunk : List (List (Option Int))) (md : DatasetMetadata) :
    ((write_to_hdf5 store name chunk md).1.isSome = true →
      (write_to_hdf5 store name chunk md).2 = store) ∧
    ((write_to_hdf5 store name chunk md).1 = none →
      ∀ ds : StoredDataset, lookupDataset store name = some ds →
        lookupDataset (write_to_hdf5 store name chunk md).2 name =
          some ⟨extendMetadata ds.metadata md, ds.data ++ chunk⟩) ∧
    ((write_to_hdf5 store name chunk md).1 = none →
      lookupDataset store name = none →
      lookupDataset (write_to_hdf5 store name chunk md).2 name =
        some ⟨md, chunk⟩) := by
  refine ⟨write_unchanged_on_error name chunk md store, ?_, ?_⟩
  · intro h ds hds
    have := write_commits name chunk md store h
    rw [hds] at this
    exact this
  · intro h hds
    have := write_commits name chunk md store h
    rw [hds] at this
    exact this

/-- Witness for C7 on a concrete store: an append with a mismatched
resolution fails and leaves the store unchanged; a compatible append
extends the stored dataset's rows, row count and end timestamp. -/
theorem write_to_hdf5_atomic_witness :
    (write_to_hdf5 [("d", ⟨⟨["AAA"], .usEquity, ["AAA"], 0, 10, "5Min", 2, 1⟩,
        [[some 1], [some 2]]⟩)] "d" [[some 9]]
        ⟨["AAA"], .usEquity, ["AAA"], 10, 20, "1Min", 1, 1⟩).2 =
      [("d", ⟨⟨["AAA"], .usEquity, ["AAA"], 0, 10, "5Min", 2, 1⟩,
        [[some 1], [some 2]]⟩)] ∧
    lookupDataset (write_to_hdf5 [("d", ⟨⟨["AAA"], .usEquity, ["AAA"], 0, 10,
        "5Min", 2, 1⟩, [[some 1], [some 2]]⟩)] "d" [[some 3], [some 4]]
        ⟨["AAA"], .usEquity, ["AAA"], 10, 20, "5Min", 2, 1⟩).2 "d" =
      some ⟨⟨["AAA"], .usEquity, ["AAA"], 0, 20, "5Min", 4, 1⟩,
        [[some 1], [some 2], [some 3], [some 4]]⟩ := by
  constructor
  · exact (write_to_hdf5_atomic _ "d" [[some 9]]
      ⟨["AAA"], .usEquity, ["AAA"], 10, 20, "1Min", 1, 1⟩).1 (by decide)
  · exact (write_to_hdf5_atomic _ "d" [[some 3], [some 4]]
      ⟨["AAA"], .usEquity, ["AAA"], 10, 20, "5Min", 2, 1⟩).2.1 (by decide)
      ⟨⟨["AAA"], .usEquity, ["AAA"], 0, 10, "5Min", 2, 1⟩,
        [[some 1], [some 2]]⟩ (by decide)

theorem densityFold_eq (sessions : List SessionData) :
    ∀ st : DensityState, sessions.foldl updateDensity st =
      ⟨st.observed + (sessions.map sessionObservedCells).sum,
        st.total + (sessions.map sessionTotalCells).sum⟩ := by
  induction sessions with
  | nil =>
    intro st
    simp
  | cons sd rest ih =>
    intro st
    rw [List.foldl_cons, ih]
    simp only [updateDensity, List.map_cons, List.sum_cons]
    rw [DensityState.mk.injEq]
    constructor <;> omega

theorem sessionObservedCells_le_total (sd : SessionData) :
    sessionObservedCells sd ≤ sessionTotalCells sd := by
  unfold sessionObservedCells sessionTotalCells
  refine List.sum_le_sum ?_
  intro s _
  exact List.length_filter_le _ _

/-- C8: after any number of processed sessions the running density
statistic lies in [0, 1], and the tracker state is exactly the cumulative
genuinely-observed-cell and total-cell counts summed over all processed
sessions — a cell counts as observed only when its grid point carries a
raw observation, never when it was forward-filled, and the ratio is
recomputed over cumulative totals, not a per-session average of
averages. -/
theorem running_dataset_density_bounds (sessions : List SessionData) :
    0 ≤ running_dataset_density (sessions.foldl updateDensity ⟨0, 0⟩) ∧
    running_dataset_density (sessions.foldl updateDensity ⟨0, 0⟩) ≤ 1 ∧
    (sessions.foldl updateDensity ⟨0, 0⟩).observed =
      (sessions.map sessionObservedCells).sum ∧
    (sessions.foldl updateDensity ⟨0, 0⟩).total =
      (sessions.map sessionTotalCells).sum := by
  rw [densityFold_eq sessions ⟨0, 0⟩]
  simp only [Nat.zero_add]
  have hle : (sessions.map sessionObservedCells).sum ≤
      (sessions.map sessionTotalCells).sum :=
    List.sum_le_sum fun sd _ => sessionObservedCells_le_total sd
  refine ⟨?_, ?_, by trivial, by trivial⟩
  · unfold running_dataset_density
    by_cases h : (sessions.map sessionTotalCells).sum = 0
    · simp [h]
    · simp only [h, if_neg, if_false]
      positivity
  · unfold running_dataset_density
    by_cases h : (sessions.map sessionTotalCells).sum = 0
    · simp [h]
    · simp only [h, if_false]
      rw [div_le_one (by positivity)]
      exact_mod_cast hle

theorem processSessions_result_cases (env : Env) (name : String)
    (symbols : List String) (ac : AssetClass) (resolution : String) :
    ∀ (sched fetches : List (Nat × Nat)) (store : Store),
      (processSessions env name symbols ac resolution sched fetches store).result =
          .ok none ∨
      (processSessions env name symbols ac resolution sched fetches store).result =
          .error .missingSymbolData ∨
      (processSessions env name symbols ac resolution sched fetches store).result =
          .error .incompatibleAppend := by
  intro sched
  induction sched with
  | nil =>
    intro fetches store
    exact Or.inl rfl
  | cons sess rest ih =>
    obtain ⟨o, c⟩ := sess
    intro fetches store
    rcases halign : alignSession (env.fetchData (o, c)) symbols o c
        (resolutionMinutes resolution) with e | frame
    · refine Or.inr (Or.inl ?_)
      simp [processSessions, halign]
    · rcases hw : write_to_hdf5 store name (frameMatrix frame)
          ⟨columnSchemaOf frame, ac, symbols, o, c, resolution,
            frameRows frame, frame.length⟩ with ⟨e₁, store'⟩
      cases e₁ with
      | none =>
        have hstep : processSessions env name symbols ac resolution
            ((o, c) :: rest) fetches store =
            processSessions env name symbols ac resolution rest
              (fetches ++ [(o, c)]) store' := by
          simp [processSessions, halign, hw]
        rw [hstep]
        exact ih _ _
      | some e₂ =>
        refine Or.inr (Or.inr ?_)
        simp [processSessions, halign, hw]

/-- C6: whenever the pipeline entry point fails with an input-validation
error (invalid path, any symbol-validation failure, invalid resolution,
or empty schedule), no raw-data fetch call has been issued and the store
is exactly as it was before the call — validation errors always precede
the first fetch and create no partial state. -/
theorem download_validation_before_fetch (env : Env) (store : Store)
    (name : String) (symbols : List String) (resolution : String)
    (e : PipelineError) (he : isValidationError e = true)
    (hres : (download_features_to_hdf5 env store name symbols resolution).result =
      .error e) :
    (download_features_to_hdf5 env store name symbols resolution).fetches = [] ∧
    (download_features_to_hdf5 env store name symbols resolution).store = store := by
  unfold download_features_to_hdf5 at hres ⊢
  by_cases hp : env.pathValid = false
  · rw [if_pos hp]
    exact ⟨rfl, rfl⟩
  · rw [if_neg hp] at hres ⊢
    rcases hv : validateSymbols env.catalog symbols with ev | ac
    · simp only [hv]
      exact ⟨by trivial, by trivial⟩
    · simp only [hv] at hres ⊢
      by_cases hr : validResolution resolution = false
      · rw [if_pos hr]
        exact ⟨rfl, rfl⟩
      · rw [if_neg hr] at hres ⊢
        by_cases hs : (env.schedule ac).length = 0
        · rw [if_pos hs]
          exact ⟨rfl, rfl⟩
        · rw [if_neg hs] at hres
          exfalso
          rcases processSessions_result_cases env name symbols ac resolution
              (env.schedule ac) [] store with h | h | h
          · rw [h] at hres
            exact Except.noConfusion hres
          · rw [h] at hres
            obtain rfl : PipelineError.missingSymbolData = e :=
              Except.error.inj hres
            exact Bool.noConfusion he
          · rw [h] at hres
            obtain rfl : PipelineError.incompatibleAppend = e :=
              Except.error.inj hres
            exact Bool.noConfusion he

/-- Witness for C6: a catalog that does not know the requested symbol —
the run fails with the unknown-symbol validation error, the fetch trace
is empty and the store is untouched. -/
theorem download_validation_before_fetch_witness :
    (download_features_to_hdf5 ⟨[], true, fun _ => [(0, 10)], fun _ => []⟩
      [] "d" ["AAA"] "5Min").fetches = [] ∧
    (download_features_to_hdf5 ⟨[], true, fun _ => [(0, 10)], fun _ => []⟩
      [] "d" ["AAA"] "5Min").store = [] :=
  download_validation_before_fetch _ [] "d" ["AAA"] "5Min"
    (.validation (.unknownSymbol "AAA")) (by decide) (by rfl)

/-- C10: a run of the pipeline entry point either fails with an error or
returns the value modelling Python `None` — it never returns the
`DatasetMetadata` record that its declared return type announces. -/
theorem download_returns_none (env : Env) (store : Store) (name : String)
    (symbols : List String) (resolution : String) :
    (download_features_to_hdf5 env store name symbols resolution).result =
        .ok none ∨
    ∃ e : PipelineError,
      (download_features_to_hdf5 env store name symbols resolution).result =
        .error e := by
  unfold download_features_to_hdf5
  by_cases hp : env.pathValid = false
  · rw [if_pos hp]
    exact Or.inr ⟨_, rfl⟩
  · rw [if_neg hp]
    rcases hv : validateSymbols env.catalog symbols with ev | ac
    · simp only [hv]
      exact Or.inr ⟨_, rfl⟩
    · simp only [hv]
      by_cases hr : validResolution resolution = false
      · rw [if_pos hr]
        exact Or.inr ⟨_, rfl⟩
      · rw [if_neg hr]
        by_cases hs : (env.schedule ac).length = 0
        · rw [if_pos hs]
          exact Or.inr ⟨_, rfl⟩
        · rw [if_neg hs]
          rcases processSessions_result_cases env name symbols ac resolution
              (env.schedule ac) [] store with h | h | h
          · exact Or.inl h
          · exact Or.inr ⟨_, h⟩
          · exact Or.inr ⟨_, h⟩

end Neural
